import Mathlib

/-!
# casbin-qmgo-adapter: the rule codec and the policy store adapter

A shallow embedding of `adapter.go`.  Go strings are `String`, slices are
`List`, a Go `map[string]interface{}` holding string values is an association
list with at most one entry per key, a Go `error` is `Option Error` (`none` is
`nil`), and a run-time panic of an index expression is `none` of an outer
`Option`.  The document collection behind `*qmgo.Collection` is an external
collaborator: every adapter operation takes its behaviour as a parameter
(`Collection`), and `memCollection` is the reference behaviour of a collection
holding a set of records.
-/

namespace qmgoadapter

/-! ## Data model -/

/-- CasbinRule represents a rule in Casbin (`adapter.go`, lines 16-24). -/
structure CasbinRule where
  PType : String
  V0 : String
  V1 : String
  V2 : String
  V3 : String
  V4 : String
  V5 : String
deriving DecidableEq, Repr

/-- Go's `strings.Join(elems, sep)`. -/
def stringsJoin (elems : List String) (sep : String) : String :=
  sep.intercalate elems

/-! ## Rule codec -/

/-- The function `savePolicyLine` (`adapter.go`, lines 162-187): each slot is
assigned under its own length guard, the other slots keep the zero value. -/
def savePolicyLine (ptype : String) (rule : List String) : CasbinRule :=
  let line : CasbinRule :=
    { PType := ptype, V0 := "", V1 := "", V2 := "", V3 := "", V4 := "", V5 := "" }
  let line := if h : rule.length > 0 then { line with V0 := rule[0] } else line
  let line := if h : rule.length > 1 then { line with V1 := rule[1] } else line
  let line := if h : rule.length > 2 then { line with V2 := rule[2] } else line
  let line := if h : rule.length > 3 then { line with V3 := rule[3] } else line
  let line := if h : rule.length > 4 then { line with V4 := rule[4] } else line
  let line := if h : rule.length > 5 then { line with V5 := rule[5] } else line
  line

/-- The function `loadPolicyLine` (`adapter.go`, lines 109-128).  The model
loader `persist.LoadPolicyLine` belongs to the authorization engine and is the
parameter `LoadPolicyLine`, acting on a model of any type `μ`; the function's
whole effect on the model is the one call that ends it.  `lineText` starts as
the zero value `""` and the `if / else if` chain has no final `else`. -/
def loadPolicyLine {μ : Type} (LoadPolicyLine : String → μ → μ)
    (line : CasbinRule) (model : μ) : μ :=
  let p : List String :=
    [line.PType, line.V0, line.V1, line.V2, line.V3, line.V4, line.V5]
  let lineText : String := ""
  let lineText :=
    if line.V5 ≠ "" then stringsJoin p ", "
    else if line.V4 ≠ "" then stringsJoin (p.take 6) ", "
    else if line.V3 ≠ "" then stringsJoin (p.take 5) ", "
    else if line.V2 ≠ "" then stringsJoin (p.take 4) ", "
    else if line.V1 ≠ "" then stringsJoin (p.take 3) ", "
    else if line.V0 ≠ "" then stringsJoin (p.take 2) ", "
    else lineText
  LoadPolicyLine lineText model

/-- A model loader that keeps the line text it is handed: with it,
`loadPolicyLine` evaluates to the text it passes to the loader. -/
def handedText (lineText : String) (_ : String) : String := lineText

/-- A model loader that records every line text it is handed, in order. -/
def recordLine (lineText : String) (log : List String) : List String :=
  log ++ [lineText]

/-- The contiguity convention of the spec on a field list: no empty field
comes before a non-empty one. -/
def noEmptyBeforeNonEmpty : List String → Prop
  | [] => True
  | f :: rest => (f = "" → ∀ g ∈ rest, g = "") ∧ noEmptyBeforeNonEmpty rest

instance : DecidablePred noEmptyBeforeNonEmpty := fun fields => by
  induction fields with
  | nil => exact isTrue trivial
  | cons f rest ih =>
    unfold noEmptyBeforeNonEmpty
    exact @instDecidableAnd _ _ inferInstance ih

/-! ## Errors, selectors and the document collection -/

/-- A Go `error` value, as far as the adapter and its callers tell them apart. -/
inductive Error where
  /-- The value of `errors.New(text)`. -/
  | errorsNew (text : String)
  /-- The sentinel `qmgo.ErrNoSuchDocuments`. -/
  | ErrNoSuchDocuments
  /-- Any other error value produced by the store client. -/
  | store (code : Nat)
deriving DecidableEq, Repr

/-- A `map[string]interface{}` (or `bson.M`) whose values are strings: at most
one entry per key. -/
structure Selector where
  entries : List (String × String)
deriving DecidableEq, Repr

/-- The empty map literal. -/
def Selector.empty : Selector := { entries := [] }

/-- The assignment `selector[key] = value`: an entry of the same key is replaced. -/
def Selector.set (selector : Selector) (key value : String) : Selector :=
  { entries := (key, value) :: selector.entries.filter (fun kv => kv.1 != key) }

/-- The value a map holds for `key`, if any. -/
def Selector.get (selector : Selector) (key : String) : Option String :=
  selector.entries.lookup key

/-- The attribute of the stored document of a `CasbinRule` under `key`: the
struct has no field tags, so the driver stores each field under its lower-cased
name. -/
def CasbinRule.field (doc : CasbinRule) (key : String) : Option String :=
  if key = "ptype" then some doc.PType
  else if key = "v0" then some doc.V0
  else if key = "v1" then some doc.V1
  else if key = "v2" then some doc.V2
  else if key = "v3" then some doc.V3
  else if key = "v4" then some doc.V4
  else if key = "v5" then some doc.V5
  else none

/-- Equality selector of the store: a document is selected when every entry
of the selector equals the document's attribute of that key. -/
def Selector.selects (selector : Selector) (doc : CasbinRule) : Bool :=
  selector.entries.all (fun kv => doc.field kv.1 == some kv.2)

/-- The filter argument `Find` receives from `LoadFilteredPolicy`. -/
inductive Filter (φ : Type) where
  /-- The literal `bson.D{{}}` substituted for a nil filter. -/
  | matchAll
  /-- A non-nil filter of the caller, passed through as it is. -/
  | given (filter : φ)
deriving DecidableEq, Repr

/-- What `Find(ctx, filter).All(&lines)` leaves behind: the contents of `lines`,
the error it returns, and the state of the collection. -/
structure FindResult (σ : Type) where
  lines : List CasbinRule
  err : Option Error
  state : σ

/-- The operations of `*qmgo.Collection` the adapter calls, as functions on the
state `σ` of the collection; `φ` is the type of the caller's native filters.
Each write returns its error (`none` for nil) and the state it leaves. -/
structure Collection (σ φ : Type) where
  CreateOneIndex : List String → Bool → σ → Option Error × σ
  Find : Filter φ → σ → FindResult σ
  DropCollection : σ → Option Error × σ
  InsertOne : CasbinRule → σ → Option Error × σ
  InsertMany : List CasbinRule → σ → Option Error × σ
  Remove : Selector → σ → Option Error × σ
  RemoveAll : Selector → σ → Option Error × σ

/-- The struct `adapter` (`adapter.go`, lines 26-29); `collection` is the state
of the collection behind the handle. -/
structure adapter (σ : Type) where
  collection : σ
  filtered : Bool
deriving DecidableEq, Repr

/-- The type `model.Assertion` of the engine, as far as `SavePolicy` reads it. -/
structure Assertion where
  Policy : List (List String)
deriving DecidableEq, Repr

/-- The type `model.Model`, a map from section to a map from ptype to assertion;
each map is listed in the order a `range` over it visits its entries. -/
abbrev Model := List (String × List (String × Assertion))

/-- The map index `model[sec]`: the nil map when the section is absent. -/
def modelSection (model : Model) (sec : String) : List (String × Assertion) :=
  (model.lookup sec).getD []

/-- Go's index expression `s[i]` on a slice with an `int` index: `none` is the
run-time panic for an index out of range. -/
def sliceIndex (s : List String) (i : Int) : Option String :=
  if 0 ≤ i ∧ i < (s.length : Int) then s[i.toNat]? else none

/-- The key of slot `p` of a record: `v0` to `v5`. -/
def slotKey (p : Fin 6) : String :=
  match p with
  | 0 => "v0"
  | 1 => "v1"
  | 2 => "v2"
  | 3 => "v3"
  | 4 => "v4"
  | 5 => "v5"

/-- The slot `p` of a record: `V0` to `V5`. -/
def CasbinRule.slot (doc : CasbinRule) (p : Fin 6) : String :=
  match p with
  | 0 => doc.V0
  | 1 => doc.V1
  | 2 => doc.V2
  | 3 => doc.V3
  | 4 => doc.V4
  | 5 => doc.V5

/-- The map after `selector[key] = value` when `value` is present, the map
itself otherwise. -/
def Selector.setSome (selector : Selector) (key : String) (value : Option String) : Selector :=
  match value with
  | some v => selector.set key v
  | none => selector

/-- The value the block of position `p` of `RemoveFilteredPolicy` assigns, if it
assigns one: `fieldValues[p - fieldIndex]` when `p` lies in the range of the
arguments and that value is non-empty. -/
def blockValue (fieldIndex : Int) (fieldValues : List String) (p : Int) : Option String :=
  if fieldIndex ≤ p ∧ p < fieldIndex + (fieldValues.length : Int) then
    (sliceIndex fieldValues (p - fieldIndex)).filter (fun value => value ≠ "")
  else none

/-! ## Policy store adapter -/

/-- The constructor `NewAdapter` (`adapter.go`, lines 47-65); what
`CreateOneIndex` returns is discarded. -/
def NewAdapter {σ φ : Type} (c : Collection σ φ) (coll : σ) : adapter σ :=
  let a : adapter σ := { collection := coll, filtered := false }
  let created := c.CreateOneIndex ["ptype", "v0", "v1", "v2", "v3", "v4", "v5"] true a.collection
  { a with collection := created.2 }

/-- The constructor `NewFilteredAdapter` (`adapter.go`, lines 69-74). -/
def NewFilteredAdapter {σ φ : Type} (c : Collection σ φ) (coll : σ) :
    adapter σ × Option Error :=
  let a := NewAdapter c coll
  let a := { a with filtered := true }
  (a, none)

/-- The method `IsFiltered` (`adapter.go`, lines 82-84). -/
def IsFiltered {σ : Type} (a : adapter σ) : Bool :=
  a.filtered

/-- What a load operation returns and leaves: the returned error, the adapter
and the model after the call. -/
structure LoadResult (σ μ : Type) where
  err : Option Error
  adapter : adapter σ
  model : μ

/-- The method `LoadFilteredPolicy` (`adapter.go`, lines 88-107).  The filter is
`none` for a nil interface value.  The error `All(&lines)` returns is not
assigned to anything, and the function ends in `return nil`. -/
def LoadFilteredPolicy {σ φ μ : Type} (c : Collection σ φ)
    (LoadPolicyLine : String → μ → μ) (a : adapter σ) (model : μ)
    (filter : Option φ) : LoadResult σ μ :=
  let (a, filter) : adapter σ × Filter φ :=
    match filter with
    | none => ({ a with filtered := false }, Filter.matchAll)
    | some f => ({ a with filtered := true }, Filter.given f)
  let found := c.Find filter a.collection
  let a := { a with collection := found.state }
  let lines := found.lines
  let model := lines.foldl (fun m v => loadPolicyLine LoadPolicyLine v m) model
  { err := none, adapter := a, model := model }

/-- The method `LoadPolicy` (`adapter.go`, lines 77-79). -/
def LoadPolicy {σ φ μ : Type} (c : Collection σ φ)
    (LoadPolicyLine : String → μ → μ) (a : adapter σ) (model : μ) : LoadResult σ μ :=
  LoadFilteredPolicy c LoadPolicyLine a model none

/-- The two loops of `SavePolicy` (`adapter.go`, lines 139-153): the batch
`lines`, first the rules of every bucket of `model["p"]`, then those of
`model["g"]`. -/
def saveLines (model : Model) : List CasbinRule :=
  let lines : List CasbinRule := []
  let lines := (modelSection model "p").foldl
    (fun lines bucket =>
      bucket.2.Policy.foldl (fun lines rule => lines ++ [savePolicyLine bucket.1 rule]) lines)
    lines
  let lines := (modelSection model "g").foldl
    (fun lines bucket =>
      bucket.2.Policy.foldl (fun lines rule => lines ++ [savePolicyLine bucket.1 rule]) lines)
    lines
  lines

/-- The method `SavePolicy` (`adapter.go`, lines 131-160). -/
def SavePolicy {σ φ : Type} (c : Collection σ φ) (a : adapter σ) (model : Model) :
    Option Error × adapter σ :=
  if a.filtered then
    (some (Error.errorsNew "cannot save a filtered policy"), a)
  else
    let dropped := c.DropCollection a.collection
    let a := { a with collection := dropped.2 }
    match dropped.1 with
    | some err => (some err, a)
    | none =>
      let lines := saveLines model
      let inserted := c.InsertMany lines a.collection
      let a := { a with collection := inserted.2 }
      match inserted.1 with
      | some err => (some err, a)
      | none => (none, a)

/-- The method `AddPolicy` (`adapter.go`, lines 190-198). -/
def AddPolicy {σ φ : Type} (c : Collection σ φ) (a : adapter σ)
    (_sec : String) (ptype : String) (rule : List String) : Option Error × adapter σ :=
  let line := savePolicyLine ptype rule
  let inserted := c.InsertOne line a.collection
  let a := { a with collection := inserted.2 }
  match inserted.1 with
  | some err => (some err, a)
  | none => (none, a)

/-- The selector literal of `RemovePolicy` (`adapter.go`, lines 204-212). -/
def removePolicySelector (line : CasbinRule) : Selector :=
  ((((((Selector.empty.set "ptype" line.PType).set "v0" line.V0).set "v1" line.V1).set
    "v2" line.V2).set "v3" line.V3).set "v4" line.V4).set "v5" line.V5

/-- The method `RemovePolicy` (`adapter.go`, lines 201-220). -/
def RemovePolicy {σ φ : Type} (c : Collection σ φ) (a : adapter σ)
    (_sec : String) (ptype : String) (rule : List String) : Option Error × adapter σ :=
  let line := savePolicyLine ptype rule
  let removed := c.Remove (removePolicySelector line) a.collection
  let a := { a with collection := removed.2 }
  match removed.1 with
  | some err =>
    if err = Error.ErrNoSuchDocuments then (none, a)
    else (some err, a)
  | none => (none, a)

/-- One of the six blocks of `RemoveFilteredPolicy` (`adapter.go`, lines
227-256), the block of position `p` and key `key`:
`if fieldIndex <= p && p < fieldIndex+len(fieldValues)`, then
`if fieldValues[p-fieldIndex] != ""`, then
`selector[key] = fieldValues[p-fieldIndex]`.  The sum is evaluated only when
`fieldIndex <= p <= 5`, where it cannot leave the range of `int`. -/
def selectorBlock (p : Int) (key : String) (fieldIndex : Int) (fieldValues : List String)
    (selector : Selector) : Option Selector :=
  if fieldIndex ≤ p ∧ p < fieldIndex + (fieldValues.length : Int) then
    match sliceIndex fieldValues (p - fieldIndex) with
    | none => none
    | some value => if value ≠ "" then some (selector.set key value) else some selector
  else some selector

/-- The selector `RemoveFilteredPolicy` builds (`adapter.go`, lines 224-256):
the map literal holding `"ptype"`, then the six blocks for `v0` to `v5`. -/
def removeFilteredSelector (ptype : String) (fieldIndex : Int) (fieldValues : List String) :
    Option Selector := do
  let selector := Selector.empty.set "ptype" ptype
  let selector ← selectorBlock 0 "v0" fieldIndex fieldValues selector
  let selector ← selectorBlock 1 "v1" fieldIndex fieldValues selector
  let selector ← selectorBlock 2 "v2" fieldIndex fieldValues selector
  let selector ← selectorBlock 3 "v3" fieldIndex fieldValues selector
  let selector ← selectorBlock 4 "v4" fieldIndex fieldValues selector
  let selector ← selectorBlock 5 "v5" fieldIndex fieldValues selector
  pure selector

/-- The method `RemoveFilteredPolicy` (`adapter.go`, lines 223-263); the outer
`none` is a panic while the selector is built. -/
def RemoveFilteredPolicy {σ φ : Type} (c : Collection σ φ) (a : adapter σ)
    (_sec : String) (ptype : String) (fieldIndex : Int) (fieldValues : List String) :
    Option (Option Error × adapter σ) :=
  match removeFilteredSelector ptype fieldIndex fieldValues with
  | none => none
  | some selector =>
    let removed := c.RemoveAll selector a.collection
    let a := { a with collection := removed.2 }
    match removed.1 with
    | some err => some (some err, a)
    | none => some (none, a)

/-! ## A collection holding a set of records -/

/-- The state of the reference collection: its documents, and whether the
unique compound index over `(ptype, v0, ..., v5)` exists. -/
structure MemState where
  docs : List CasbinRule
  uniqueIndex : Bool
deriving DecidableEq, Repr

/-- The duplicate-key error of the store (server code 11000). -/
def duplicateKey : Error := Error.store 11000

/-- The error of the store client for an empty batch. -/
def emptyBatch : Error := Error.store 0

/-- Insert-one of the reference collection: with the unique index in place a
document equal to a stored one is rejected. -/
def memInsertOne (doc : CasbinRule) (s : MemState) : Option Error × MemState :=
  if s.uniqueIndex ∧ doc ∈ s.docs then (some duplicateKey, s)
  else (none, { s with docs := s.docs ++ [doc] })

/-- Ordered insert-many of the reference collection: documents are inserted
one by one up to the first rejected one. -/
def memInsertAll : List CasbinRule → MemState → Option Error × MemState
  | [], s => (none, s)
  | doc :: rest, s =>
    match memInsertOne doc s with
    | (some err, s) => (some err, s)
    | (none, s) => memInsertAll rest s

/-- The reference behaviour of the document collection of spec section 6, with
every call reaching the store: find-with-selector returns all matches in stored
order, drop-collection removes the documents and the index, delete-one reports
`ErrNoSuchDocuments` when nothing matches, delete-many removes every match. -/
def memCollection : Collection MemState Selector where
  CreateOneIndex := fun _ unique s =>
    if unique ∧ ¬ s.docs.Nodup then (some duplicateKey, s)
    else (none, { s with uniqueIndex := s.uniqueIndex || unique })
  Find := fun filter s =>
    match filter with
    | Filter.matchAll => { lines := s.docs, err := none, state := s }
    | Filter.given selector =>
      { lines := s.docs.filter selector.selects, err := none, state := s }
  DropCollection := fun _ => (none, { docs := [], uniqueIndex := false })
  InsertOne := memInsertOne
  InsertMany := fun docs s =>
    match docs with
    | [] => (some emptyBatch, s)
    | _ => memInsertAll docs s
  Remove := fun selector s =>
    match s.docs.find? selector.selects with
    | none => (some Error.ErrNoSuchDocuments, s)
    | some doc => (none, { s with docs := s.docs.erase doc })
  RemoveAll := fun selector s =>
    (none, { s with docs := s.docs.filter (fun doc => !selector.selects doc) })

/-- A collection whose every call fails with the error `e` and changes nothing. -/
def failingCollection (e : Error) : Collection Unit Unit where
  CreateOneIndex := fun _ _ s => (some e, s)
  Find := fun _ s => { lines := [], err := some e, state := s }
  DropCollection := fun s => (some e, s)
  InsertOne := fun _ s => (some e, s)
  InsertMany := fun _ s => (some e, s)
  Remove := fun _ s => (some e, s)
  RemoveAll := fun _ s => (some e, s)

/-- A collection that does nothing but record the name of every call it
receives; every call succeeds. -/
def callLog : Collection (List String) Unit where
  CreateOneIndex := fun _ _ log => (none, log ++ ["CreateOneIndex"])
  Find := fun _ log => { lines := [], err := none, state := log ++ ["Find"] }
  DropCollection := fun log => (none, log ++ ["DropCollection"])
  InsertOne := fun _ log => (none, log ++ ["InsertOne"])
  InsertMany := fun _ log => (none, log ++ ["InsertMany"])
  Remove := fun _ log => (none, log ++ ["Remove"])
  RemoveAll := fun _ log => (none, log ++ ["RemoveAll"])

/-- A store holding the rule `p, alice, data1, read`, with the unique index. -/
def aliceStore : MemState :=
  { docs := [savePolicyLine "p" ["alice", "data1", "read"]], uniqueIndex := true }

/-- A model whose `p` section holds the one rule `p, bob, data2, write`. -/
def bobModel : Model :=
  [("p", [("p", { Policy := [["bob", "data2", "write"]] })])]

/-- The six slots of a record, `V0` to `V5`, in order. -/
def CasbinRule.slots (line : CasbinRule) : List String :=
  [line.V0, line.V1, line.V2, line.V3, line.V4, line.V5]

/-- The records of the rules of one bucket `(ptype, assertion)` of a section,
in the order of `assertion.Policy`. -/
def bucketRecords (bucket : String × Assertion) : List CasbinRule :=
  bucket.2.Policy.map (savePolicyLine bucket.1)

/-- The records of the rules of a section, bucket after bucket. -/
def sectionRecords (buckets : List (String × Assertion)) : List CasbinRule :=
  buckets.flatMap bucketRecords

/-- The line text `loadPolicyLine` hands to the loader for a record. -/
def lineTextOf (line : CasbinRule) : String :=
  loadPolicyLine handedText line ""

/-- A record that breaks the contiguity convention: `V0` empty, `V1` not. -/
def gapRecord : CasbinRule :=
  { PType := "p", V0 := "", V1 := "alice", V2 := "", V3 := "", V4 := "", V5 := "" }

/-- The record `savePolicyLine` builds from a list of at most six fields, slot
by slot. -/
theorem savePolicyLine_slots (ptype : String) (rule : List String) :
    savePolicyLine ptype rule =
      { PType := ptype, V0 := rule.getD 0 "", V1 := rule.getD 1 "", V2 := rule.getD 2 "",
        V3 := rule.getD 3 "", V4 := rule.getD 4 "", V5 := rule.getD 5 "" } := by
  rcases rule with _ | ⟨a, _ | ⟨b, _ | ⟨c, _ | ⟨d, _ | ⟨e, _ | ⟨f, rest⟩⟩⟩⟩⟩⟩ <;>
    simp [savePolicyLine]

/-- C1, as stated, fails: the field list `["alice", ""]` has at most six fields
and no empty field before a non-empty one, yet the line handed to the loader for
the record of `savePolicyLine "p" ["alice", ""]` is `"p, alice"`, not the type
followed by both fields. -/
theorem roundtrip_drops_trailing_empty_field :
    ["alice", ""].length ≤ 6 ∧ noEmptyBeforeNonEmpty ["alice", ""] ∧
      loadPolicyLine handedText (savePolicyLine "p" ["alice", ""]) "" = "p, alice" ∧
      loadPolicyLine handedText (savePolicyLine "p" ["alice", ""]) "" ≠
        stringsJoin ("p" :: ["alice", ""]) ", " := by
  decide

/-- C1, amended: for every ptype and every list of one to six fields in which
no empty field comes before a non-empty one and whose last field is non-empty,
the line text `loadPolicyLine` hands to the model loader for the record of
`savePolicyLine ptype fields` is ptype followed by exactly those fields, in
order, joined by `", "`. -/
theorem roundtrip_of_nonempty_last (ptype : String) (fields : List String)
    (hlen : fields.length ≤ 6) (_hgap : noEmptyBeforeNonEmpty fields)
    (hlast : ∃ last, fields.getLast? = some last ∧ last ≠ "")
    {μ : Type} (LoadPolicyLine : String → μ → μ) (model : μ) :
    loadPolicyLine LoadPolicyLine (savePolicyLine ptype fields) model =
      LoadPolicyLine (stringsJoin (ptype :: fields) ", ") model := by
  obtain ⟨last, hl, hne⟩ := hlast
  rcases fields with _ | ⟨a, _ | ⟨b, _ | ⟨c, _ | ⟨d, _ | ⟨e, _ | ⟨f, _ | ⟨g, rest⟩⟩⟩⟩⟩⟩⟩
  · simp at hl
  all_goals first
    | (simp at hlen; done)
    | (simp at hl; subst hl; simp [savePolicyLine, loadPolicyLine, stringsJoin, hne])

/-- Witness of `roundtrip_of_nonempty_last`: the rule `p, alice, data1, read`;
the text handed to the loader is that of the three fields. -/
theorem roundtrip_of_nonempty_last_witness :
    loadPolicyLine handedText (savePolicyLine "p" ["alice", "data1", "read"]) "" =
      handedText (stringsJoin ("p" :: ["alice", "data1", "read"]) ", ") "" :=
  roundtrip_of_nonempty_last "p" ["alice", "data1", "read"] (by decide) (by decide)
    ⟨"read", by decide, by decide⟩ handedText ""

/-- C2 on the code: for every ptype, the record of a rule with no fields makes
`loadPolicyLine` hand the loader the empty text, not the type tag; at ptype
`"p"` the text handed over is `""` and differs from `"p"`. -/
theorem zero_arity_line_is_empty :
    (∀ (ptype : String) (μ : Type) (LoadPolicyLine : String → μ → μ) (model : μ),
      loadPolicyLine LoadPolicyLine (savePolicyLine ptype []) model =
        LoadPolicyLine "" model) ∧
    loadPolicyLine handedText (savePolicyLine "p" []) "" = "" ∧
    loadPolicyLine handedText (savePolicyLine "p" []) "" ≠ stringsJoin ("p" :: []) ", " := by
  refine ⟨?_, by decide, by decide⟩
  intro ptype μ LoadPolicyLine model
  simp [savePolicyLine, loadPolicyLine]

/-- C3: for every ptype and every six non-empty fields, the line text
`loadPolicyLine` hands to the model loader for the record of `savePolicyLine`
on those fields is ptype and all six fields in their order, joined by `", "`. -/
theorem six_fields_roundtrip (ptype f0 f1 f2 f3 f4 f5 : String)
    (_h0 : f0 ≠ "") (_h1 : f1 ≠ "") (_h2 : f2 ≠ "") (_h3 : f3 ≠ "") (_h4 : f4 ≠ "")
    (h5 : f5 ≠ "") {μ : Type} (LoadPolicyLine : String → μ → μ) (model : μ) :
    loadPolicyLine LoadPolicyLine (savePolicyLine ptype [f0, f1, f2, f3, f4, f5]) model =
      LoadPolicyLine (stringsJoin [ptype, f0, f1, f2, f3, f4, f5] ", ") model := by
  simp [savePolicyLine, loadPolicyLine, h5]

/-- Witness of `six_fields_roundtrip`: a rule with the six fields `a` to `f`. -/
theorem six_fields_roundtrip_witness :
    loadPolicyLine handedText (savePolicyLine "p" ["a", "b", "c", "d", "e", "f"]) "" =
      handedText (stringsJoin ["p", "a", "b", "c", "d", "e", "f"] ", ") "" :=
  six_fields_roundtrip "p" "a" "b" "c" "d" "e" "f" (by decide) (by decide) (by decide)
    (by decide) (by decide) (by decide) handedText ""

/-! ## Theorems: selectors -/

/-- Looking a key up is not affected by dropping the entries of another key. -/
theorem lookup_filter_ne (entries : List (String × String)) (key k : String) (h : k ≠ key) :
    (entries.filter (fun kv => kv.1 != key)).lookup k = entries.lookup k := by
  induction entries with
  | nil => rfl
  | cons kv rest ih =>
    obtain ⟨k1, v1⟩ := kv
    by_cases h1 : k1 = key
    · subst h1
      have hk : (k == k1) = false := by simpa using h
      simp [List.filter_cons, List.lookup_cons, hk, ih]
    · have hk : (k1 != key) = true := by simpa using h1
      simp only [List.filter_cons, hk, if_true, List.lookup_cons, ih]

/-- Reading a map after an assignment. -/
theorem Selector.get_set (selector : Selector) (key value k : String) :
    (selector.set key value).get k = if k = key then some value else selector.get k := by
  unfold Selector.set Selector.get
  by_cases h : k = key
  · subst h
    simp [List.lookup_cons]
  · have hk : (k == key) = false := by simpa using h
    simp [List.lookup_cons, hk, h, lookup_filter_ne _ _ _ h]

/-- The empty map holds no key. -/
theorem Selector.get_empty (k : String) : Selector.empty.get k = none := rfl

/-- Reading a map after a conditional assignment. -/
theorem Selector.get_setSome (selector : Selector) (key k : String) (value : Option String) :
    (selector.setSome key value).get k =
      if k = key ∧ value.isSome then value else selector.get k := by
  cases value with
  | none => simp [Selector.setSome]
  | some v => simp [Selector.setSome, Selector.get_set]

/-- An index inside the slice does not panic. -/
theorem sliceIndex_isSome (s : List String) (i : Int) (h0 : 0 ≤ i) (h1 : i < (s.length : Int)) :
    ∃ value, sliceIndex s i = some value := by
  have hlt : i.toNat < s.length := by omega
  exact ⟨s[i.toNat], by simp [sliceIndex, h0, h1, List.getElem?_eq_getElem hlt]⟩

/-- Each block of `RemoveFilteredPolicy` returns, and assigns `blockValue`. -/
theorem selectorBlock_eq (p : Int) (key : String) (fieldIndex : Int) (fieldValues : List String)
    (selector : Selector) :
    selectorBlock p key fieldIndex fieldValues selector =
      some (selector.setSome key (blockValue fieldIndex fieldValues p)) := by
  unfold selectorBlock blockValue
  by_cases h : fieldIndex ≤ p ∧ p < fieldIndex + (fieldValues.length : Int)
  · obtain ⟨value, hv⟩ := sliceIndex_isSome fieldValues (p - fieldIndex) (by omega) (by omega)
    by_cases hne : value = ""
    · simp [h, hv, hne, Selector.setSome, Option.filter]
    · simp [h, hv, hne, Selector.setSome, Option.filter]
  · simp [h, Selector.setSome]

/-- The selector of `RemoveFilteredPolicy` in closed form. -/
theorem removeFilteredSelector_eq (ptype : String) (fieldIndex : Int) (fieldValues : List String) :
    removeFilteredSelector ptype fieldIndex fieldValues =
      some ((((((((Selector.empty.set "ptype" ptype).setSome
        "v0" (blockValue fieldIndex fieldValues 0)).setSome
        "v1" (blockValue fieldIndex fieldValues 1)).setSome
        "v2" (blockValue fieldIndex fieldValues 2)).setSome
        "v3" (blockValue fieldIndex fieldValues 3)).setSome
        "v4" (blockValue fieldIndex fieldValues 4)).setSome
        "v5" (blockValue fieldIndex fieldValues 5))) := by
  simp [removeFilteredSelector, selectorBlock_eq]

/-- When the block of position `p` assigns the value `x`. -/
theorem blockValue_eq_some (fieldIndex : Int) (fieldValues : List String) (p : Int) (x : String) :
    blockValue fieldIndex fieldValues p = some x ↔
      (fieldIndex ≤ p ∧ p < fieldIndex + (fieldValues.length : Int) ∧
        sliceIndex fieldValues (p - fieldIndex) = some x ∧ x ≠ "") := by
  unfold blockValue
  by_cases h : fieldIndex ≤ p ∧ p < fieldIndex + (fieldValues.length : Int)
  · simp only [h, and_self, if_true, true_and]
    cases hs : sliceIndex fieldValues (p - fieldIndex) with
    | none => simp [Option.filter]
    | some v =>
      by_cases hv : v = ""
      · subst hv; simp [Option.filter]
        intro hx; subst hx; rfl
      · simp [Option.filter, hv]
        intro hx; subst hx; exact hv
  · constructor
    · intro hx; simp [h] at hx
    · rintro ⟨h1, h2, -, -⟩; exact absurd ⟨h1, h2⟩ h

/-- Reading the selector of `RemoveFilteredPolicy` at the key of slot `p`. -/
theorem removeFiltered_get_slot (ptype : String) (fieldIndex : Int) (fieldValues : List String)
    (selector : Selector) (h : removeFilteredSelector ptype fieldIndex fieldValues = some selector)
    (p : Fin 6) :
    selector.get (slotKey p) = blockValue fieldIndex fieldValues (p.val : Int) := by
  rw [removeFilteredSelector_eq] at h
  cases h
  fin_cases p <;>
    simp [slotKey, Selector.get_setSome, Selector.get_set, Selector.get_empty] <;>
    intro hnone <;> simp [hnone]

/-- C4: for every ptype, every integer fieldIndex and every list fieldValues,
`RemoveFilteredPolicy` builds its selector without a panic; the selector
constrains `ptype` to equal ptype; for each position `p` in 0..5 it constrains
`v{p}` to `x` exactly when `fieldIndex <= p < fieldIndex + len(fieldValues)` and
`x = fieldValues[p - fieldIndex]` is non-empty; and it holds no other key. -/
theorem removeFiltered_selector_constraints (ptype : String) (fieldIndex : Int)
    (fieldValues : List String) :
    ∃ selector, removeFilteredSelector ptype fieldIndex fieldValues = some selector ∧
      selector.get "ptype" = some ptype ∧
      (∀ (p : Fin 6) (x : String), selector.get (slotKey p) = some x ↔
        (fieldIndex ≤ (p.val : Int) ∧ (p.val : Int) < fieldIndex + (fieldValues.length : Int) ∧
          sliceIndex fieldValues ((p.val : Int) - fieldIndex) = some x ∧ x ≠ "")) ∧
      (∀ key x, selector.get key = some x → key = "ptype" ∨ ∃ p : Fin 6, key = slotKey p) := by
  refine ⟨_, removeFilteredSelector_eq ptype fieldIndex fieldValues, ?_, ?_, ?_⟩
  · simp [Selector.get_setSome, Selector.get_set]
  · intro p x
    rw [removeFiltered_get_slot ptype fieldIndex fieldValues _
      (removeFilteredSelector_eq ptype fieldIndex fieldValues) p]
    exact blockValue_eq_some fieldIndex fieldValues (p.val : Int) x
  · intro key x hx
    by_contra hkey
    push_neg at hkey
    obtain ⟨hp, hs⟩ := hkey
    have h0 := hs 0
    have h1 := hs 1
    have h2 := hs 2
    have h3 := hs 3
    have h4 := hs 4
    have h5 := hs 5
    simp only [slotKey] at h0 h1 h2 h3 h4 h5
    simp [Selector.get_setSome, Selector.get_set, Selector.get_empty, hp, h0, h1, h2,
      h3, h4, h5] at hx

/-! ## Theorems: what a selector selects -/

/-- Dropping the entries of a key the map does not hold changes nothing. -/
theorem filter_ne_of_lookup_none (entries : List (String × String)) (key : String)
    (h : entries.lookup key = none) :
    entries.filter (fun kv => kv.1 != key) = entries := by
  induction entries with
  | nil => rfl
  | cons kv rest ih =>
    obtain ⟨k1, v1⟩ := kv
    by_cases h1 : key = k1
    · subst h1
      simp [List.lookup_cons] at h
    · have hk : (key == k1) = false := by simpa using h1
      have hk1 : (k1 != key) = true := by simpa using fun h2 : k1 = key => h1 h2.symm
      rw [List.lookup_cons, hk] at h
      simp only [List.filter_cons, hk1, if_true, ih h]

/-- Assigning a key the map does not hold adds one equality to the selection. -/
theorem Selector.selects_set (selector : Selector) (key value : String) (doc : CasbinRule)
    (h : selector.get key = none) :
    (selector.set key value).selects doc =
      (doc.field key == some value && selector.selects doc) := by
  unfold Selector.get at h
  simp only [Selector.selects, Selector.set, filter_ne_of_lookup_none _ _ h, List.all_cons]

/-- Conditionally assigning a key the map does not hold. -/
theorem Selector.selects_setSome (selector : Selector) (key : String) (value : Option String)
    (doc : CasbinRule) (h : selector.get key = none) :
    (selector.setSome key value).selects doc =
      ((value.all fun v => doc.field key == some v) && selector.selects doc) := by
  cases value with
  | none => simp [Selector.setSome]
  | some v => simp [Selector.setSome, Selector.selects_set _ _ _ _ h]

/-- The attributes of a stored document under the seven keys. -/
theorem CasbinRule.field_keys (doc : CasbinRule) :
    doc.field "ptype" = some doc.PType ∧ doc.field "v0" = some doc.V0 ∧
      doc.field "v1" = some doc.V1 ∧ doc.field "v2" = some doc.V2 ∧
      doc.field "v3" = some doc.V3 ∧ doc.field "v4" = some doc.V4 ∧
      doc.field "v5" = some doc.V5 := by
  refine ⟨?_, ?_, ?_, ?_, ?_, ?_, ?_⟩ <;> simp [CasbinRule.field]

/-- An optional equality constraint on a slot holding `y`. -/
theorem optional_constraint_iff (value : Option String) (y : String) :
    (value.all fun v => some y == some v) = true ↔ ∀ x, value = some x → y = x := by
  cases value <;> simp

/-- The empty map selects every document. -/
theorem Selector.selects_empty (doc : CasbinRule) : Selector.empty.selects doc = true := rfl

/-- The selector of `RemovePolicy` selects a document exactly when the document
equals the encoded record. -/
theorem removePolicySelector_selects (line doc : CasbinRule) :
    (removePolicySelector line).selects doc = true ↔ doc = line := by
  unfold removePolicySelector
  rw [Selector.selects_set, Selector.selects_set, Selector.selects_set, Selector.selects_set,
    Selector.selects_set, Selector.selects_set, Selector.selects_set, Selector.selects_empty]
  · obtain ⟨hp, h0, h1, h2, h3, h4, h5⟩ := doc.field_keys
    rw [hp, h0, h1, h2, h3, h4, h5]
    obtain ⟨t, a, b, c, d, e, f⟩ := doc
    obtain ⟨t1, a1, b1, c1, d1, e1, f1⟩ := line
    simp
    tauto
  all_goals simp [Selector.get_set, Selector.get_empty]

/-- The selector of `RemoveFilteredPolicy` selects a document exactly when the
document has the ptype and, in every slot the selector constrains, the
constrained value. -/
theorem removeFilteredSelector_selects (ptype : String) (fieldIndex : Int)
    (fieldValues : List String) (selector : Selector)
    (h : removeFilteredSelector ptype fieldIndex fieldValues = some selector) (doc : CasbinRule) :
    selector.selects doc = true ↔
      (doc.PType = ptype ∧
        ∀ (p : Fin 6) (x : String), selector.get (slotKey p) = some x → doc.slot p = x) := by
  have hget := removeFiltered_get_slot ptype fieldIndex fieldValues selector h
  simp only [hget]
  rw [removeFilteredSelector_eq] at h
  cases h
  rw [Selector.selects_setSome, Selector.selects_setSome, Selector.selects_setSome,
    Selector.selects_setSome, Selector.selects_setSome, Selector.selects_setSome,
    Selector.selects_set, Selector.selects_empty]
  · obtain ⟨hp, h0, h1, h2, h3, h4, h5⟩ := doc.field_keys
    rw [hp, h0, h1, h2, h3, h4, h5]
    simp only [Bool.and_eq_true, optional_constraint_iff, Fin.forall_fin_succ,
      Fin.forall_fin_zero_pi, CasbinRule.slot]
    simp
    tauto
  all_goals simp [Selector.get_setSome, Selector.get_set, Selector.get_empty]

/-! ## Theorems: the adapter operations -/

/-- C5: on a collection holding a set of records, with a succeeding
`RemoveAll`, `RemoveFilteredPolicy` returns no error and leaves exactly the
records its selector does not select, each in its place; the selector selects
a record exactly when the record has the ptype and every constrained slot holds
the constrained value.  With the rules `p, alice, data1, read` and
`p, bob, data1, write` stored, ptype `p`, fieldIndex 0 and value `alice` remove
only the first, and fieldIndex 1 and value `data1` remove both. -/
theorem RemoveFilteredPolicy_deletes_selected :
    (∀ (s : MemState) (filtered : Bool) (sec ptype : String) (fieldIndex : Int)
        (fieldValues : List String),
      ∃ selector, removeFilteredSelector ptype fieldIndex fieldValues = some selector ∧
        RemoveFilteredPolicy memCollection { collection := s, filtered := filtered }
            sec ptype fieldIndex fieldValues =
          some (none,
            { collection :=
                { s with docs := s.docs.filter (fun doc => !selector.selects doc) },
              filtered := filtered }) ∧
        (∀ doc, doc ∈ s.docs.filter (fun doc => !selector.selects doc) ↔
          (doc ∈ s.docs ∧ ¬ selector.selects doc = true)) ∧
        (∀ doc, selector.selects doc = true ↔
          (doc.PType = ptype ∧
            ∀ (p : Fin 6) (x : String), selector.get (slotKey p) = some x → doc.slot p = x))) ∧
    RemoveFilteredPolicy memCollection
        { collection :=
            { docs := [savePolicyLine "p" ["alice", "data1", "read"],
                savePolicyLine "p" ["bob", "data1", "write"]],
              uniqueIndex := true },
          filtered := false }
        "p" "p" 0 ["alice"] =
      some (none,
        { collection :=
            { docs := [savePolicyLine "p" ["bob", "data1", "write"]], uniqueIndex := true },
          filtered := false }) ∧
    RemoveFilteredPolicy memCollection
        { collection :=
            { docs := [savePolicyLine "p" ["alice", "data1", "read"],
                savePolicyLine "p" ["bob", "data1", "write"]],
              uniqueIndex := true },
          filtered := false }
        "p" "p" 1 ["data1"] =
      some (none, { collection := { docs := [], uniqueIndex := true }, filtered := false }) := by
  refine ⟨?_, by decide, by decide⟩
  intro s filtered sec ptype fieldIndex fieldValues
  have hsel := removeFilteredSelector_eq ptype fieldIndex fieldValues
  refine ⟨_, hsel, ?_, ?_, ?_⟩
  · simp [RemoveFilteredPolicy, hsel, memCollection]
  · intro doc
    simp [List.mem_filter]
  · exact removeFilteredSelector_selects ptype fieldIndex fieldValues _ hsel

/-- The flag after a load with a nil filter. -/
theorem LoadFilteredPolicy_nil_filtered {σ φ μ : Type} (c : Collection σ φ)
    (LoadPolicyLine : String → μ → μ) (a : adapter σ) (model : μ) :
    (LoadFilteredPolicy c LoadPolicyLine a model none).adapter.filtered = false := rfl

/-- The flag after a load with a non-nil filter. -/
theorem LoadFilteredPolicy_some_filtered {σ φ μ : Type} (c : Collection σ φ)
    (LoadPolicyLine : String → μ → μ) (a : adapter σ) (model : μ) (f : φ) :
    (LoadFilteredPolicy c LoadPolicyLine a model (some f)).adapter.filtered = true := rfl

/-- With the flag set, `SavePolicy` returns its own error and the adapter as it was. -/
theorem SavePolicy_of_filtered {σ φ : Type} (c : Collection σ φ) (a : adapter σ) (model : Model)
    (h : a.filtered = true) :
    SavePolicy c a model = (some (Error.errorsNew "cannot save a filtered policy"), a) := by
  simp [SavePolicy, h]

/-- With the flag clear and both store calls succeeding, `SavePolicy` returns nil. -/
theorem SavePolicy_of_success {σ φ : Type} (c : Collection σ φ) (a : adapter σ) (model : Model)
    (h : a.filtered = false) (hdrop : (c.DropCollection a.collection).1 = none)
    (hins : (c.InsertMany (saveLines model) (c.DropCollection a.collection).2).1 = none) :
    (SavePolicy c a model).1 = none := by
  simp [SavePolicy, h, hdrop, hins]

/-- C6: for every model and every behaviour and state of the collection, when
the filtered flag is true `SavePolicy` returns the error "cannot save a filtered
policy" and leaves the state of the collection and the flag as they were, so no
store operation was issued (a collection recording its calls records none); so
it is after `LoadFilteredPolicy` with a non-nil filter.  When the flag is false
and `DropCollection` and `InsertMany` succeed, `SavePolicy` returns no error; so
it is after `LoadPolicy` and after `LoadFilteredPolicy` with a nil filter. -/
theorem SavePolicy_filtered_guard {σ φ μ : Type} (c : Collection σ φ)
    (LoadPolicyLine : String → μ → μ) (a : adapter σ) (loaded : μ) (model : Model) :
    (a.filtered = true →
      SavePolicy c a model = (some (Error.errorsNew "cannot save a filtered policy"), a)) ∧
    (∀ log : List String,
      SavePolicy callLog { collection := log, filtered := true } model =
        (some (Error.errorsNew "cannot save a filtered policy"),
          { collection := log, filtered := true })) ∧
    (∀ f : φ,
      SavePolicy c (LoadFilteredPolicy c LoadPolicyLine a loaded (some f)).adapter model =
        (some (Error.errorsNew "cannot save a filtered policy"),
          (LoadFilteredPolicy c LoadPolicyLine a loaded (some f)).adapter)) ∧
    (a.filtered = false → (c.DropCollection a.collection).1 = none →
      (c.InsertMany (saveLines model) (c.DropCollection a.collection).2).1 = none →
      (SavePolicy c a model).1 = none) ∧
    (∀ b : adapter σ,
      (b = (LoadPolicy c LoadPolicyLine a loaded).adapter ∨
        b = (LoadFilteredPolicy c LoadPolicyLine a loaded none).adapter) →
      (c.DropCollection b.collection).1 = none →
      (c.InsertMany (saveLines model) (c.DropCollection b.collection).2).1 = none →
      (SavePolicy c b model).1 = none) := by
  refine ⟨SavePolicy_of_filtered c a model, ?_, ?_, SavePolicy_of_success c a model, ?_⟩
  · intro log
    exact SavePolicy_of_filtered callLog _ model rfl
  · intro f
    exact SavePolicy_of_filtered c _ model
      (LoadFilteredPolicy_some_filtered c LoadPolicyLine a loaded f)
  · intro b hb hdrop hins
    refine SavePolicy_of_success c b model ?_ hdrop hins
    rcases hb with hb | hb <;> subst hb
    · exact LoadFilteredPolicy_nil_filtered c LoadPolicyLine a loaded
    · exact LoadFilteredPolicy_nil_filtered c LoadPolicyLine a loaded

/-- Witness of `SavePolicy_filtered_guard`: a filtered adapter over a stored
rule keeps it and returns the error; an unfiltered adapter over the same store
saves a model of one rule without error. -/
theorem SavePolicy_filtered_guard_witness :
    SavePolicy memCollection { collection := aliceStore, filtered := true } bobModel =
      (some (Error.errorsNew "cannot save a filtered policy"),
        { collection := aliceStore, filtered := true }) ∧
    (SavePolicy memCollection { collection := aliceStore, filtered := false } bobModel).1 =
      none :=
  ⟨(SavePolicy_filtered_guard memCollection recordLine
      { collection := aliceStore, filtered := true } [] bobModel).1 rfl,
   (SavePolicy_filtered_guard memCollection recordLine
      { collection := aliceStore, filtered := false } [] bobModel).2.2.2.1 rfl
      (by decide) (by decide)⟩

/-- C7: for every adapter state, model and behaviour of the collection,
`IsFiltered` returns false after `LoadPolicy` and after `LoadFilteredPolicy`
with a nil filter, and true after `LoadFilteredPolicy` with a non-nil filter. -/
theorem load_sets_filtered {σ φ μ : Type} (c : Collection σ φ)
    (LoadPolicyLine : String → μ → μ) (a : adapter σ) (model : μ) :
    IsFiltered (LoadPolicy c LoadPolicyLine a model).adapter = false ∧
    IsFiltered (LoadFilteredPolicy c LoadPolicyLine a model none).adapter = false ∧
    ∀ f : φ, IsFiltered (LoadFilteredPolicy c LoadPolicyLine a model (some f)).adapter = true :=
  ⟨rfl, rfl, fun _ => rfl⟩

/-- C8 on the code: `LoadFilteredPolicy` and `LoadPolicy` return nil whatever
the retrieval returns; over a collection whose find-all fails with an error
`e`, both report success instead of `e`. -/
theorem load_discards_find_error :
    (∀ (σ φ μ : Type) (c : Collection σ φ) (LoadPolicyLine : String → μ → μ) (a : adapter σ)
        (model : μ) (filter : Option φ),
      (LoadFilteredPolicy c LoadPolicyLine a model filter).err = none ∧
        (LoadPolicy c LoadPolicyLine a model).err = none) ∧
    ((failingCollection (Error.store 1)).Find Filter.matchAll ()).err = some (Error.store 1) ∧
    (LoadFilteredPolicy (failingCollection (Error.store 1)) recordLine
        { collection := (), filtered := false } [] none).err = none ∧
    (LoadPolicy (failingCollection (Error.store 1)) recordLine
        { collection := (), filtered := false } []).err = none :=
  ⟨fun _ _ _ _ _ _ _ _ => ⟨rfl, rfl⟩, rfl, rfl, rfl⟩

/-- C9: for every behaviour and state of the collection, when the store call
fails with an error `e` the write operations return exactly `e`: `AddPolicy`
for `InsertOne`, `RemoveFilteredPolicy` for `RemoveAll`, `SavePolicy` with the
flag clear for `DropCollection` and, after a successful drop, for `InsertMany`,
and `RemovePolicy` for `Remove` when `e` is not `ErrNoSuchDocuments`.  In
particular, on a collection with the unique index that already holds the encoded
record, `AddPolicy` returns the duplicate-key error and not success. -/
theorem write_errors_propagate {σ φ : Type} (c : Collection σ φ) (a : adapter σ)
    (sec ptype : String) (rule : List String) (fieldIndex : Int) (fieldValues : List String)
    (model : Model) (e : Error) :
    ((c.InsertOne (savePolicyLine ptype rule) a.collection).1 = some e →
      (AddPolicy c a sec ptype rule).1 = some e) ∧
    (∃ selector, removeFilteredSelector ptype fieldIndex fieldValues = some selector ∧
      ((c.RemoveAll selector a.collection).1 = some e →
        (RemoveFilteredPolicy c a sec ptype fieldIndex fieldValues).map (fun r => r.1) =
          some (some e))) ∧
    (a.filtered = false → (c.DropCollection a.collection).1 = some e →
      (SavePolicy c a model).1 = some e) ∧
    (a.filtered = false → (c.DropCollection a.collection).1 = none →
      (c.InsertMany (saveLines model) (c.DropCollection a.collection).2).1 = some e →
      (SavePolicy c a model).1 = some e) ∧
    (e ≠ Error.ErrNoSuchDocuments →
      (c.Remove (removePolicySelector (savePolicyLine ptype rule)) a.collection).1 = some e →
      (RemovePolicy c a sec ptype rule).1 = some e) ∧
    (∀ (s : MemState) (filtered : Bool), s.uniqueIndex = true →
      savePolicyLine ptype rule ∈ s.docs →
      AddPolicy memCollection { collection := s, filtered := filtered } sec ptype rule =
        (some duplicateKey, { collection := s, filtered := filtered })) := by
  refine ⟨?_, ⟨_, removeFilteredSelector_eq ptype fieldIndex fieldValues, ?_⟩, ?_, ?_, ?_, ?_⟩
  · intro h
    simp [AddPolicy, h]
  · intro h
    simp [RemoveFilteredPolicy, removeFilteredSelector_eq, h]
  · intro hf h
    simp [SavePolicy, hf, h]
  · intro hf hd h
    simp [SavePolicy, hf, hd, h]
  · intro hne h
    simp [RemovePolicy, h, hne]
  · intro s filtered hu hmem
    simp [AddPolicy, memCollection, memInsertOne, hu, hmem]

/-- Witness of `write_errors_propagate`: over a collection whose every call
fails with the error of code 7, each write operation returns that error; and
adding the stored rule of `aliceStore` again is rejected as a duplicate. -/
theorem write_errors_propagate_witness :
    (AddPolicy (failingCollection (Error.store 7)) { collection := (), filtered := false }
        "p" "p" ["alice", "data1", "read"]).1 = some (Error.store 7) ∧
    (SavePolicy (failingCollection (Error.store 7)) { collection := (), filtered := false }
        bobModel).1 = some (Error.store 7) ∧
    (RemovePolicy (failingCollection (Error.store 7)) { collection := (), filtered := false }
        "p" "p" ["alice", "data1", "read"]).1 = some (Error.store 7) ∧
    AddPolicy memCollection { collection := aliceStore, filtered := false }
        "p" "p" ["alice", "data1", "read"] =
      (some duplicateKey, { collection := aliceStore, filtered := false }) :=
  ⟨(write_errors_propagate (failingCollection (Error.store 7))
      { collection := (), filtered := false } "p" "p" ["alice", "data1", "read"] 0 ["alice"]
      bobModel (Error.store 7)).1 rfl,
   (write_errors_propagate (failingCollection (Error.store 7))
      { collection := (), filtered := false } "p" "p" ["alice", "data1", "read"] 0 ["alice"]
      bobModel (Error.store 7)).2.2.1 rfl rfl,
   (write_errors_propagate (failingCollection (Error.store 7))
      { collection := (), filtered := false } "p" "p" ["alice", "data1", "read"] 0 ["alice"]
      bobModel (Error.store 7)).2.2.2.2.1 (by decide) rfl,
   (write_errors_propagate memCollection
      { collection := aliceStore, filtered := false } "p" "p" ["alice", "data1", "read"] 0
      ["alice"] bobModel (Error.store 7)).2.2.2.2.2 aliceStore false rfl (by decide)⟩

/-- C10: on a collection holding a set of records, for every contents and every
`(ptype, rule)` whose encoded record is not stored, the store's delete-one
reports `ErrNoSuchDocuments`, and `RemovePolicy` returns no error and leaves the
contents as they were; and for every behaviour of the collection, when `Remove`
reports `ErrNoSuchDocuments`, `RemovePolicy` returns no error. -/
theorem RemovePolicy_absent (s : MemState) (filtered : Bool) (sec ptype : String)
    (rule : List String) (h : savePolicyLine ptype rule ∉ s.docs) :
    (memCollection.Remove (removePolicySelector (savePolicyLine ptype rule)) s).1 =
      some Error.ErrNoSuchDocuments ∧
    RemovePolicy memCollection { collection := s, filtered := filtered } sec ptype rule =
      (none, { collection := s, filtered := filtered }) ∧
    (∀ (σ φ : Type) (c : Collection σ φ) (a : adapter σ),
      (c.Remove (removePolicySelector (savePolicyLine ptype rule)) a.collection).1 =
        some Error.ErrNoSuchDocuments →
      (RemovePolicy c a sec ptype rule).1 = none) := by
  have hfind : s.docs.find? (removePolicySelector (savePolicyLine ptype rule)).selects = none := by
    rw [List.find?_eq_none]
    intro doc hdoc hsel
    rw [removePolicySelector_selects] at hsel
    exact h (hsel ▸ hdoc)
  refine ⟨?_, ?_, ?_⟩
  · simp [memCollection, hfind]
  · simp [RemovePolicy, memCollection, hfind]
  · intro σ φ c a hc
    simp [RemovePolicy, hc]

/-- Witness of `RemovePolicy_absent`: removing the rule `p, bob, data2, write`
from a store that holds only `p, alice, data1, read`. -/
theorem RemovePolicy_absent_witness :
    savePolicyLine "p" ["bob", "data2", "write"] ∉ aliceStore.docs ∧
    RemovePolicy memCollection { collection := aliceStore, filtered := false }
        "p" "p" ["bob", "data2", "write"] =
      (none, { collection := aliceStore, filtered := false }) :=
  ⟨by decide,
   (RemovePolicy_absent aliceStore false "p" "p" ["bob", "data2", "write"] (by decide)).2.1⟩

/-! ## Theorems: decoding and encoding in general -/

/-- The line text of a record whose highest non-empty slot is `k`. -/
theorem loadPolicyLine_of_highest (line : CasbinRule) (k : Fin 6)
    (hk : line.slot k ≠ "") (hafter : ∀ j : Fin 6, k < j → line.slot j = "")
    {μ : Type} (LoadPolicyLine : String → μ → μ) (model : μ) :
    loadPolicyLine LoadPolicyLine line model =
      LoadPolicyLine (stringsJoin (line.PType :: line.slots.take (k.val + 1)) ", ") model := by
  obtain ⟨t, a, b, c, d, e, f⟩ := line
  obtain ⟨k, hk6⟩ := k
  have h1 : k < 1 → b = "" := fun h => hafter ⟨1, by decide⟩ h
  have h2 : k < 2 → c = "" := fun h => hafter ⟨2, by decide⟩ h
  have h3 : k < 3 → d = "" := fun h => hafter ⟨3, by decide⟩ h
  have h4 : k < 4 → e = "" := fun h => hafter ⟨4, by decide⟩ h
  have h5 : k < 5 → f = "" := fun h => hafter ⟨5, by decide⟩ h
  clear hafter
  interval_cases k <;>
    simp [CasbinRule.slot] at hk h1 h2 h3 h4 h5 <;>
    simp [loadPolicyLine, CasbinRule.slots, hk, h1, h2, h3, h4, h5]

/-- C15, as stated, fails: the record with ptype `p`, `V0` empty and `V1`
`alice` is not decoded to an empty field list; the line text handed to the
loader is `p, , alice`, which holds `V1`, and is neither the type tag alone
nor the empty text. -/
theorem gap_record_keeps_V1 :
    gapRecord.V0 = "" ∧ gapRecord.V1 ≠ "" ∧
      loadPolicyLine handedText gapRecord "" = "p, , alice" ∧
      loadPolicyLine handedText gapRecord "" ≠ stringsJoin [gapRecord.PType] ", " ∧
      loadPolicyLine handedText gapRecord "" ≠ "" := by
  decide

/-- C15, amended: for every record whose `V0` is empty and whose `V1` is
non-empty, `loadPolicyLine` drops neither: there is a highest non-empty slot
`k`, it is at least 1, and the line text is `PType`, the empty `V0`, `V1` and
the slots after it up to `V{k}`, joined by `", "`; only the slots after `k`,
all empty, are left out. -/
theorem gap_record_line (line : CasbinRule) (h0 : line.V0 = "") (h1 : line.V1 ≠ "")
    {μ : Type} (LoadPolicyLine : String → μ → μ) (model : μ) :
    ∃ k : Fin 6, 1 ≤ k.val ∧ line.slot k ≠ "" ∧ (∀ j : Fin 6, k < j → line.slot j = "") ∧
      loadPolicyLine LoadPolicyLine line model =
        LoadPolicyLine
          (stringsJoin (line.PType :: "" :: line.V1 :: (line.slots.drop 2).take (k.val - 1)) ", ")
          model := by
  obtain ⟨t, a, b, c, d, e, f⟩ := line
  simp only at h0 h1
  subst h0
  by_cases h5 : f = ""
  · by_cases h4 : e = ""
    · by_cases h3 : d = ""
      · by_cases h2 : c = ""
        · refine ⟨⟨1, by decide⟩, by simp, by simpa [CasbinRule.slot] using h1, ?_, ?_⟩
          · rintro ⟨j, hj6⟩ hj
            have hj' : 1 < j := hj
            interval_cases j <;> simp_all [CasbinRule.slot]
          · simp [loadPolicyLine, CasbinRule.slots, h1, h2, h3, h4, h5]
        · refine ⟨⟨2, by decide⟩, by simp, by simpa [CasbinRule.slot] using h2, ?_, ?_⟩
          · rintro ⟨j, hj6⟩ hj
            have hj' : 2 < j := hj
            interval_cases j <;> simp_all [CasbinRule.slot]
          · simp [loadPolicyLine, CasbinRule.slots, h2, h3, h4, h5]
      · refine ⟨⟨3, by decide⟩, by simp, by simpa [CasbinRule.slot] using h3, ?_, ?_⟩
        · rintro ⟨j, hj6⟩ hj
          have hj' : 3 < j := hj
          interval_cases j <;> simp_all [CasbinRule.slot]
        · simp [loadPolicyLine, CasbinRule.slots, h3, h4, h5]
    · refine ⟨⟨4, by decide⟩, by simp, by simpa [CasbinRule.slot] using h4, ?_, ?_⟩
      · rintro ⟨j, hj6⟩ hj
        have hj' : 4 < j := hj
        interval_cases j
        simp_all [CasbinRule.slot]
      · simp [loadPolicyLine, CasbinRule.slots, h4, h5]
  · refine ⟨⟨5, by decide⟩, by simp, by simpa [CasbinRule.slot] using h5, ?_, ?_⟩
    · rintro ⟨j, hj6⟩ hj
      have hj' : 5 < j := hj
      omega
    · simp [loadPolicyLine, CasbinRule.slots, h5]

/-- Witness of `gap_record_line`: the record `gapRecord`. -/
theorem gap_record_line_witness :
    ∃ k : Fin 6, 1 ≤ k.val ∧ gapRecord.slot k ≠ "" ∧
      (∀ j : Fin 6, k < j → gapRecord.slot j = "") ∧
      loadPolicyLine handedText gapRecord "" =
        handedText
          (stringsJoin
            (gapRecord.PType :: "" :: gapRecord.V1 :: (gapRecord.slots.drop 2).take (k.val - 1))
            ", ")
          "" :=
  gap_record_line gapRecord (by decide) (by decide) handedText ""

/-- C16: for every record with a non-empty slot, with `k` the highest index
whose `V{k}` is non-empty, the line text `loadPolicyLine` hands to the loader
is `PType, V0, ..., V{k}` joined by `", "`: every slot up to `k`, empty ones
too, and no slot after `k`. -/
theorem declared_arity_line (line : CasbinRule) (k : Fin 6)
    (hk : line.slot k ≠ "") (hafter : ∀ j : Fin 6, k < j → line.slot j = "")
    {μ : Type} (LoadPolicyLine : String → μ → μ) (model : μ) :
    loadPolicyLine LoadPolicyLine line model =
        LoadPolicyLine (stringsJoin (line.PType :: line.slots.take (k.val + 1)) ", ") model ∧
      (line.PType :: line.slots.take (k.val + 1)).length = k.val + 2 ∧
      (∀ i : Fin 6, i ≤ k → (line.slots.take (k.val + 1))[i.val]? = some (line.slot i)) := by
  refine ⟨loadPolicyLine_of_highest line k hk hafter LoadPolicyLine model, ?_, ?_⟩
  · have := k.isLt
    simp [CasbinRule.slots]
    omega
  · intro i hi
    have hik : i.val ≤ k.val := hi
    obtain ⟨t, a, b, c, d, e, f⟩ := line
    rw [List.getElem?_take_of_lt (by omega)]
    fin_cases i <;> simp [CasbinRule.slots, CasbinRule.slot]

/-- Witness of `declared_arity_line`: the record `gapRecord`, whose highest
non-empty slot is `V1`; the line text is `p, , alice`. -/
theorem declared_arity_line_witness :
    loadPolicyLine handedText gapRecord "" =
      handedText (stringsJoin (gapRecord.PType :: gapRecord.slots.take ((1 : Fin 6).val + 1)) ", ")
        "" :=
  (declared_arity_line gapRecord 1 (by decide) (by decide) handedText "").1

/-- The slot `i` of the record `savePolicyLine` builds. -/
theorem savePolicyLine_slot (ptype : String) (fields : List String) (i : Fin 6) :
    (savePolicyLine ptype fields).slot i = fields.getD i.val "" := by
  rw [savePolicyLine_slots]
  fin_cases i <;> rfl

/-- C17: for every ptype and every field list of any length, `savePolicyLine`
returns (it is a total function, with no error result) the record whose `PType`
is ptype, whose `V{i}` is `fields[i]` for every `i` below both the length and 6,
and whose other slots are the empty string; fields at positions 6 and beyond
are dropped, so two field lists with the same first six fields give, for the
same ptype, the same record. -/
theorem savePolicyLine_encoding (ptype : String) (fields : List String) :
    (savePolicyLine ptype fields).PType = ptype ∧
    (∀ (i : Fin 6) (h : i.val < fields.length),
      (savePolicyLine ptype fields).slot i = fields[i.val]) ∧
    (∀ i : Fin 6, fields.length ≤ i.val → (savePolicyLine ptype fields).slot i = "") ∧
    (∀ fields2 : List String, fields2.take 6 = fields.take 6 →
      savePolicyLine ptype fields2 = savePolicyLine ptype fields) := by
  refine ⟨?_, ?_, ?_, ?_⟩
  · rw [savePolicyLine_slots]
  · intro i h
    rw [savePolicyLine_slot, List.getD_eq_getElem?_getD, List.getElem?_eq_getElem h]
    rfl
  · intro i h
    rw [savePolicyLine_slot, List.getD_eq_getElem?_getD, List.getElem?_eq_none h]
    rfl
  · intro fields2 h
    have hget : ∀ i, i < 6 → fields2.getD i "" = fields.getD i "" := by
      intro i hi
      have h1 : (fields2.take 6)[i]? = (fields.take 6)[i]? := by rw [h]
      rw [List.getElem?_take_of_lt hi, List.getElem?_take_of_lt hi] at h1
      simp [List.getD_eq_getElem?_getD, h1]
    rw [savePolicyLine_slots, savePolicyLine_slots, hget 0 (by decide), hget 1 (by decide),
      hget 2 (by decide), hget 3 (by decide), hget 4 (by decide), hget 5 (by decide)]

/-- Witness of `savePolicyLine_encoding`: a rule of seven fields and the rule
of its first six fields give the same record. -/
theorem savePolicyLine_encoding_witness :
    savePolicyLine "p" ["a", "b", "c", "d", "e", "f"] =
      savePolicyLine "p" ["a", "b", "c", "d", "e", "f", "g"] :=
  (savePolicyLine_encoding "p" ["a", "b", "c", "d", "e", "f", "g"]).2.2.2
    ["a", "b", "c", "d", "e", "f"] (by decide)

/-! ## Theorems: constructors, the flag and index safety -/

/-- C14: for every collection, the adapter `NewAdapter` returns has
`IsFiltered() = false`, and `NewFilteredAdapter` returns an adapter with
`IsFiltered() = true` together with a nil error. -/
theorem constructors_initial_state {σ φ : Type} (c : Collection σ φ) (coll : σ) :
    IsFiltered (NewAdapter c coll) = false ∧
    IsFiltered (NewFilteredAdapter c coll).1 = true ∧
    (NewFilteredAdapter c coll).2 = none :=
  ⟨rfl, rfl, rfl⟩

/-- C18: for every adapter state, arguments and behaviour of the collection
(success or failure of each call), `SavePolicy`, `AddPolicy`, `RemovePolicy` and
`RemoveFilteredPolicy` leave the filtered flag at its value before the call,
and `IsFiltered` only reads it. -/
theorem writes_keep_filtered {σ φ : Type} (c : Collection σ φ) (a : adapter σ)
    (sec ptype : String) (rule : List String) (fieldIndex : Int) (fieldValues : List String)
    (model : Model) :
    (SavePolicy c a model).2.filtered = a.filtered ∧
    (AddPolicy c a sec ptype rule).2.filtered = a.filtered ∧
    (RemovePolicy c a sec ptype rule).2.filtered = a.filtered ∧
    (∃ r, RemoveFilteredPolicy c a sec ptype fieldIndex fieldValues = some r ∧
      r.2.filtered = a.filtered) ∧
    IsFiltered a = a.filtered := by
  refine ⟨?_, ?_, ?_, ?_, rfl⟩
  · unfold SavePolicy
    split
    · rfl
    · dsimp only
      split
      · rfl
      · split <;> rfl
  · unfold AddPolicy
    dsimp only
    split <;> rfl
  · unfold RemovePolicy
    dsimp only
    split
    · split <;> rfl
    · rfl
  · unfold RemoveFilteredPolicy
    rw [removeFilteredSelector_eq]
    dsimp only
    split
    · exact ⟨_, rfl, rfl⟩
    · exact ⟨_, rfl, rfl⟩

/-- C19: for every integer fieldIndex and every list fieldValues, whenever the
guard `fieldIndex <= p && p < fieldIndex + len(fieldValues)` of a block holds,
the index `p - fieldIndex` of the access lies in `[0, len(fieldValues))` and the
access returns; an access panics only outside that range; so no block and not
the whole selector construction panics. -/
theorem selector_index_safe (ptype : String) (fieldIndex : Int) (fieldValues : List String) :
    (∀ p : Int, fieldIndex ≤ p → p < fieldIndex + (fieldValues.length : Int) →
      0 ≤ p - fieldIndex ∧ p - fieldIndex < (fieldValues.length : Int) ∧
        (sliceIndex fieldValues (p - fieldIndex)).isSome = true) ∧
    (∀ i : Int, sliceIndex fieldValues i = none ↔ ¬ (0 ≤ i ∧ i < (fieldValues.length : Int))) ∧
    (∀ (p : Int) (key : String) (selector : Selector),
      (selectorBlock p key fieldIndex fieldValues selector).isSome = true) ∧
    (removeFilteredSelector ptype fieldIndex fieldValues).isSome = true := by
  refine ⟨?_, ?_, ?_, ?_⟩
  · intro p h1 h2
    obtain ⟨v, hv⟩ := sliceIndex_isSome fieldValues (p - fieldIndex) (by omega) (by omega)
    exact ⟨by omega, by omega, by simp [hv]⟩
  · intro i
    constructor
    · intro hnone hrange
      obtain ⟨v, hv⟩ := sliceIndex_isSome fieldValues i hrange.1 hrange.2
      rw [hv] at hnone
      exact Option.noConfusion hnone
    · intro h
      simp [sliceIndex, h]
  · intro p key selector
    simp [selectorBlock_eq]
  · simp [removeFilteredSelector_eq]

/-! ## Theorems: loading -/

/-- The one call of `loadPolicyLine`, in terms of the text of the record. -/
theorem loadPolicyLine_eq_lineTextOf {μ : Type} (LoadPolicyLine : String → μ → μ)
    (line : CasbinRule) (model : μ) :
    loadPolicyLine LoadPolicyLine line model = LoadPolicyLine (lineTextOf line) model := rfl

/-- Feeding records to a loader that records its lines appends their texts in order. -/
theorem foldl_recordLine (lines : List CasbinRule) (log : List String) :
    lines.foldl (fun m v => loadPolicyLine recordLine v m) log = log ++ lines.map lineTextOf := by
  induction lines generalizing log with
  | nil => simp
  | cons v rest ih =>
    rw [List.foldl_cons, ih, loadPolicyLine_eq_lineTextOf]
    simp [recordLine]

/-- C13: for every behaviour of the collection and every list of records its
find-all returns, `LoadFilteredPolicy` returns no error and calls the model
loader once per record, in the order returned, with the line `loadPolicyLine`
builds for that record (a loader recording its lines ends with exactly those
lines appended); when no record is returned the model is left as it was;
`LoadPolicy` is `LoadFilteredPolicy` with the nil filter, for which the
collection is asked with the match-all filter; on the collection holding a set
of records it loads the lines of all stored records, as does a load with an
empty selector. -/
theorem load_hands_lines_in_order {σ φ μ : Type} (c : Collection σ φ)
    (LoadPolicyLine : String → μ → μ) (a : adapter σ) (model : μ) (log : List String) :
    (∀ filter : Option φ, (LoadFilteredPolicy c LoadPolicyLine a model filter).err = none) ∧
    (LoadFilteredPolicy c LoadPolicyLine a model none).model =
      (c.Find Filter.matchAll a.collection).lines.foldl
        (fun m v => LoadPolicyLine (lineTextOf v) m) model ∧
    (∀ f : φ, (LoadFilteredPolicy c LoadPolicyLine a model (some f)).model =
      (c.Find (Filter.given f) a.collection).lines.foldl
        (fun m v => LoadPolicyLine (lineTextOf v) m) model) ∧
    (LoadFilteredPolicy c recordLine a log none).model =
      log ++ (c.Find Filter.matchAll a.collection).lines.map lineTextOf ∧
    (∀ f : φ, (LoadFilteredPolicy c recordLine a log (some f)).model =
      log ++ (c.Find (Filter.given f) a.collection).lines.map lineTextOf) ∧
    ((c.Find Filter.matchAll a.collection).lines = [] →
      (LoadFilteredPolicy c LoadPolicyLine a model none).model = model) ∧
    (∀ f : φ, (c.Find (Filter.given f) a.collection).lines = [] →
      (LoadFilteredPolicy c LoadPolicyLine a model (some f)).model = model) ∧
    LoadPolicy c LoadPolicyLine a model = LoadFilteredPolicy c LoadPolicyLine a model none ∧
    (∀ (s : MemState) (filtered : Bool),
      (LoadPolicy memCollection recordLine { collection := s, filtered := filtered } log).model =
          log ++ s.docs.map lineTextOf ∧
        (LoadFilteredPolicy memCollection recordLine { collection := s, filtered := filtered } log
            (some Selector.empty)).model =
          log ++ s.docs.map lineTextOf) := by
  refine ⟨?_, rfl, fun _ => rfl, ?_, ?_, ?_, ?_, rfl, ?_⟩
  · intro filter
    cases filter <;> rfl
  · exact foldl_recordLine _ log
  · intro f
    exact foldl_recordLine _ log
  · intro h
    show List.foldl _ model (c.Find Filter.matchAll a.collection).lines = model
    rw [h]
    rfl
  · intro f h
    show List.foldl _ model (c.Find (Filter.given f) a.collection).lines = model
    rw [h]
    rfl
  · intro s filtered
    refine ⟨foldl_recordLine _ log, ?_⟩
    have hall : s.docs.filter Selector.empty.selects = s.docs := by
      simp [Selector.selects_empty]
    have := foldl_recordLine (s.docs.filter Selector.empty.selects) log
    rw [hall] at this
    show List.foldl _ log (s.docs.filter Selector.empty.selects) = _
    rw [hall]
    exact this

/-- Witness of `load_hands_lines_in_order`: loading `aliceStore` hands the
loader the one line `p, alice, data1, read`; a find-all returning no record
leaves the model as it was. -/
theorem load_hands_lines_in_order_witness :
    (LoadPolicy memCollection recordLine { collection := aliceStore, filtered := true } []).model =
        [] ++ aliceStore.docs.map lineTextOf ∧
      (LoadFilteredPolicy callLog recordLine { collection := [], filtered := false }
        ["p, bob, data2, write"] none).model = ["p, bob, data2, write"] :=
  ⟨((load_hands_lines_in_order memCollection recordLine
      { collection := aliceStore, filtered := true } [] []).2.2.2.2.2.2.2.2 aliceStore true).1,
   (load_hands_lines_in_order callLog recordLine { collection := [], filtered := false }
      ["p, bob, data2, write"] []).2.2.2.2.2.1 rfl⟩

/-! ## Theorems: saving -/

/-- The inner loop of `SavePolicy` appends the records of one bucket. -/
theorem policy_foldl (ptype : String) (rules : List (List String)) (lines : List CasbinRule) :
    rules.foldl (fun lines rule => lines ++ [savePolicyLine ptype rule]) lines =
      lines ++ rules.map (savePolicyLine ptype) := by
  induction rules generalizing lines with
  | nil => simp
  | cons rule rest ih =>
    rw [List.foldl_cons, ih]
    simp

/-- The outer loop of `SavePolicy` appends the records of one section. -/
theorem buckets_foldl (buckets : List (String × Assertion)) (lines : List CasbinRule) :
    buckets.foldl
        (fun lines bucket =>
          bucket.2.Policy.foldl (fun lines rule => lines ++ [savePolicyLine bucket.1 rule]) lines)
        lines =
      lines ++ sectionRecords buckets := by
  induction buckets generalizing lines with
  | nil => simp [sectionRecords]
  | cons bucket rest ih =>
    rw [List.foldl_cons, ih, policy_foldl]
    simp [sectionRecords, bucketRecords]

/-- The batch of `SavePolicy`: the records of section `p`, then those of `g`. -/
theorem saveLines_eq (model : Model) :
    saveLines model =
      sectionRecords (modelSection model "p") ++ sectionRecords (modelSection model "g") := by
  simp [saveLines, buckets_foldl]

/-- Without the unique index, the ordered insert stores the whole batch. -/
theorem memInsertAll_of_no_index (docs : List CasbinRule) (s : MemState)
    (h : s.uniqueIndex = false) :
    memInsertAll docs s = (none, { s with docs := s.docs ++ docs }) := by
  induction docs generalizing s with
  | nil => simp [memInsertAll]
  | cons doc rest ih =>
    have h1 : memInsertOne doc s = (none, { s with docs := s.docs ++ [doc] }) := by
      simp [memInsertOne, h]
    simp only [memInsertAll, h1]
    rw [ih { docs := s.docs ++ [doc], uniqueIndex := s.uniqueIndex } h]
    simp

/-- On a dropped reference collection, insert-many fails only for the empty
batch, and then stores nothing; otherwise it stores the batch. -/
theorem memInsertMany_after_drop (docs : List CasbinRule) (s : MemState) :
    (docs = [] ∧
        memCollection.InsertMany docs (memCollection.DropCollection s).2 =
          (some emptyBatch, { docs := [], uniqueIndex := false })) ∨
      (docs ≠ [] ∧
        memCollection.InsertMany docs (memCollection.DropCollection s).2 =
          (none, { docs := docs, uniqueIndex := false })) := by
  cases docs with
  | nil => exact Or.inl ⟨rfl, rfl⟩
  | cons doc rest =>
    refine Or.inr ⟨by simp, ?_⟩
    show memInsertAll (doc :: rest) { docs := [], uniqueIndex := false } = _
    rw [memInsertAll_of_no_index _ _ rfl]
    simp

/-- What `SavePolicy` returns and leaves when the flag is clear and the drop
succeeds: the outcome of the one `InsertMany` of the batch on the dropped
collection. -/
theorem SavePolicy_of_dropped {σ φ : Type} (c : Collection σ φ) (a : adapter σ) (model : Model)
    (h : a.filtered = false) (hdrop : (c.DropCollection a.collection).1 = none) :
    SavePolicy c a model =
      ((c.InsertMany (saveLines model) (c.DropCollection a.collection).2).1,
        { a with
          collection := (c.InsertMany (saveLines model) (c.DropCollection a.collection).2).2 }) := by
  simp only [SavePolicy, h, hdrop]
  cases hins : (c.InsertMany (saveLines model) (c.DropCollection a.collection).2).1 <;> simp

/-- C11: for every model, when the adapter is unfiltered and the store
operations succeed, `SavePolicy` returns no error after exactly the calls
`DropCollection` and one `InsertMany` of the batch `saveLines model`; on the
collection holding a set of records, whatever it held before, it is left
holding exactly that batch.  The batch is the records `savePolicyLine(ptype,
rule)` of every rule of every bucket of section `p`, followed by those of
section `g`, and holds nothing else. -/
theorem SavePolicy_replaces_contents (model : Model) :
    (∀ s : MemState,
      (memCollection.InsertMany (saveLines model) (memCollection.DropCollection s).2).1 = none →
      SavePolicy memCollection { collection := s, filtered := false } model =
        (none, { collection := { docs := saveLines model, uniqueIndex := false },
                 filtered := false })) ∧
    (∀ (σ φ : Type) (c : Collection σ φ) (a : adapter σ), a.filtered = false →
      (c.DropCollection a.collection).1 = none →
      (c.InsertMany (saveLines model) (c.DropCollection a.collection).2).1 = none →
      SavePolicy c a model =
        (none, { a with
          collection :=
            (c.InsertMany (saveLines model) (c.DropCollection a.collection).2).2 })) ∧
    (∀ log : List String,
      SavePolicy callLog { collection := log, filtered := false } model =
        (none, { collection := log ++ ["DropCollection", "InsertMany"], filtered := false })) ∧
    saveLines model =
      sectionRecords (modelSection model "p") ++ sectionRecords (modelSection model "g") ∧
    (∀ r : CasbinRule, r ∈ saveLines model ↔
      ∃ sec, (sec = "p" ∨ sec = "g") ∧ ∃ bucket ∈ modelSection model sec,
        ∃ rule ∈ bucket.2.Policy, r = savePolicyLine bucket.1 rule) := by
  refine ⟨?_, ?_, ?_, saveLines_eq model, ?_⟩
  · intro s hins
    rw [SavePolicy_of_dropped _ _ _ rfl rfl]
    rcases memInsertMany_after_drop (saveLines model) s with ⟨-, h⟩ | ⟨-, h⟩
    · rw [h] at hins
      exact absurd hins (by simp)
    · simp only [h]
  · intro σ φ c a hf hdrop hins
    rw [SavePolicy_of_dropped c a model hf hdrop, hins]
  · intro log
    rw [SavePolicy_of_dropped _ _ _ rfl rfl]
    simp [callLog]
  · intro r
    rw [saveLines_eq]
    simp only [List.mem_append, sectionRecords, bucketRecords, List.mem_flatMap, List.mem_map]
    constructor
    · rintro (⟨bucket, hb, rule, hr, rfl⟩ | ⟨bucket, hb, rule, hr, rfl⟩)
      · exact ⟨"p", Or.inl rfl, bucket, hb, rule, hr, rfl⟩
      · exact ⟨"g", Or.inr rfl, bucket, hb, rule, hr, rfl⟩
    · rintro ⟨sec, hsec | hsec, bucket, hb, rule, hr, rfl⟩
      · subst hsec
        exact Or.inl ⟨bucket, hb, rule, hr, rfl⟩
      · subst hsec
        exact Or.inr ⟨bucket, hb, rule, hr, rfl⟩

/-- Witness of `SavePolicy_replaces_contents`: saving the model of the one rule
`p, bob, data2, write` over `aliceStore` leaves that one record. -/
theorem SavePolicy_replaces_contents_witness :
    SavePolicy memCollection { collection := aliceStore, filtered := false } bobModel =
      (none, { collection := { docs := saveLines bobModel, uniqueIndex := false },
               filtered := false }) ∧
    saveLines bobModel = [savePolicyLine "p" ["bob", "data2", "write"]] :=
  ⟨(SavePolicy_replaces_contents bobModel).1 aliceStore (by decide), by decide⟩

/-- The selector of `RemovePolicy` holds the seven attributes of the record. -/
theorem removePolicySelector_get (line : CasbinRule) :
    (removePolicySelector line).get "ptype" = some line.PType ∧
      ∀ i : Fin 6, (removePolicySelector line).get (slotKey i) = some (line.slot i) := by
  refine ⟨by simp [removePolicySelector, Selector.get_set], ?_⟩
  intro i
  fin_cases i <;> simp [removePolicySelector, Selector.get_set, slotKey, CasbinRule.slot]

/-- Delete-one of the reference collection, after the record was appended to
contents that did not hold it, gives the contents back. -/
theorem memRemove_after_append (s : MemState) (line : CasbinRule) (h : line ∉ s.docs) :
    memCollection.Remove (removePolicySelector line) { s with docs := s.docs ++ [line] } =
      (none, s) := by
  have hnone : s.docs.find? (removePolicySelector line).selects = none := by
    rw [List.find?_eq_none]
    intro doc hdoc hsel
    rw [removePolicySelector_selects] at hsel
    exact h (hsel ▸ hdoc)
  have hline : (removePolicySelector line).selects line = true :=
    (removePolicySelector_selects line line).2 rfl
  have hfind : (s.docs ++ [line]).find? (removePolicySelector line).selects = some line := by
    rw [List.find?_append, hnone]
    simp [List.find?_cons, hline]
  have herase : (s.docs ++ [line]).erase line = s.docs := by
    rw [List.erase_append_right _ h]
    simp
  simp only [memCollection, hfind, herase]

/-- C20: the selector of `RemovePolicy` constrains `ptype` and `v0` to `v5` to
the values of `savePolicyLine(ptype, rule)`, the empty string for unused slots,
and selects a record exactly when it equals that encoding; and on a collection
holding a set of records that does not hold the encoding, `AddPolicy` followed
by `RemovePolicy` of the same rule both return no error and leave the contents
as they were. -/
theorem add_then_remove_restores (s : MemState) (filtered : Bool) (sec ptype : String)
    (rule : List String) (h : savePolicyLine ptype rule ∉ s.docs) :
    (removePolicySelector (savePolicyLine ptype rule)).get "ptype" = some ptype ∧
    (∀ i : Fin 6, (removePolicySelector (savePolicyLine ptype rule)).get (slotKey i) =
      some (rule.getD i.val "")) ∧
    (∀ doc : CasbinRule, (removePolicySelector (savePolicyLine ptype rule)).selects doc = true ↔
      doc = savePolicyLine ptype rule) ∧
    (AddPolicy memCollection { collection := s, filtered := filtered } sec ptype rule).1 = none ∧
    RemovePolicy memCollection
        (AddPolicy memCollection { collection := s, filtered := filtered } sec ptype rule).2
        sec ptype rule =
      (none, { collection := s, filtered := filtered }) := by
  have hadd : AddPolicy memCollection { collection := s, filtered := filtered } sec ptype rule =
      (none, { collection := { s with docs := s.docs ++ [savePolicyLine ptype rule] },
               filtered := filtered }) := by
    simp [AddPolicy, memCollection, memInsertOne, h]
  refine ⟨?_, ?_, ?_, ?_, ?_⟩
  · rw [(removePolicySelector_get _).1, savePolicyLine_slots]
  · intro i
    rw [(removePolicySelector_get _).2 i, savePolicyLine_slot]
  · intro doc
    exact removePolicySelector_selects _ doc
  · rw [hadd]
  · rw [hadd]
    simp only [RemovePolicy, memRemove_after_append s _ h]

/-- Witness of `add_then_remove_restores`: adding and then removing the rule
`p, bob, data2, write` on `aliceStore`. -/
theorem add_then_remove_restores_witness :
    RemovePolicy memCollection
        (AddPolicy memCollection { collection := aliceStore, filtered := false }
          "p" "p" ["bob", "data2", "write"]).2
        "p" "p" ["bob", "data2", "write"] =
      (none, { collection := aliceStore, filtered := false }) :=
  (add_then_remove_restores aliceStore false "p" "p" ["bob", "data2", "write"]
    (by decide)).2.2.2.2

end qmgoadapter
